import Mathlib

/-!
Verification of the core channel of the yasl communication substrate.

The definitions below are a shallow embedding of the C++ sources:
  * `yasl/link/transport/channel.cc` — `ChunkedMessage`, `ChannelBase`
  * `yasl/crypto/blake3_hash.cc` — `Blake3Hash`

Modelling conventions:
  * Byte strings (`std::string` keys, `Buffer`/`ByteContainerView` payloads)
    are `List Nat` of byte values.
  * `std::map` is an association list; `std::map` keyed by `size_t` chunk
    indices is kept sorted ascending with unique keys, mirroring the
    in-order iteration of `ChunkedMessage::Reassemble`.
  * C++ exceptions (`YASL_ENFORCE`, `YASL_THROW_IO_ERROR`,
    `YASL_THROW_LOGIC_ERROR`) become an `Except` result.  Because a thrown
    exception leaves the mutated object alive, every operation returns the
    post-call state alongside the `Except` result.
  * A blocking `wait_for(pred)` is modelled by evaluating the predicate on
    the state at hand: success is the branch where the predicate holds,
    the timeout exception the branch where it never does.
  * Outbound side effects (`SendImpl`/`SendAsyncImpl` handing bytes to the
    transport, condition-variable `notify_all`) are recorded in an emitted
    `List Event`.
-/

open scoped List

/-- A byte (`0 ≤ b < 256` on the wire; not constrained by the model). -/
abbrev Byte := Nat

/-- A message key (`std::string`, may contain control bytes). -/
abbrev Key := List Byte

/-- A payload (`yasl::Buffer` / `ByteContainerView`). -/
abbrev Buffer := List Byte

/-- `kAckKey`: the reserved ACK control key, bytes 'A' 'C' 'K' 0x01 0x00. -/
def kAckKey : Key := [65, 67, 75, 1, 0]

/-- `kFinKey`: the reserved FIN control key, bytes 'F' 'I' 'N' 0x01 0x00. -/
def kFinKey : Key := [70, 73, 78, 1, 0]

/-- Observable side effects of a channel operation: bytes handed to the
transport (`SendImpl`/`SendAsyncImpl`) and condition-variable wakeups. -/
inductive Event
  /-- `SendImpl`/`SendAsyncImpl(key, payload)`: hand a message to the transport. -/
  | sendMsg (key : Key) (payload : Buffer)
  /-- `msg_db_cond_.notify_all()`: wake receive waiters. -/
  | notifyMsgDb
  /-- `ack_fin_cond_.notify_all()`: wake throttle / fin waiters. -/
  | notifyAckFin
deriving DecidableEq

/-- Error kinds, following the spec taxonomy (§7).  `invalidKey` is the
`YASL_ENFORCE` on reserved keys; `recvTimeout` and `throttleTimeout` are the
two `YASL_THROW_IO_ERROR` timeouts; `protocolError` covers the bad-FIN
`YASL_ENFORCE` and the chunk-index `YASL_THROW_LOGIC_ERROR`. -/
inductive ChannelError
  | invalidKey
  | recvTimeout
  | throttleTimeout
  | protocolError
deriving DecidableEq

/-- Insert a chunk into the index-sorted chunk map, mirroring
`std::map<size_t, Buffer>::emplace`: if the index is already present the
map is left unchanged (first writer wins); otherwise the entry is placed
at its sorted position. -/
def insertChunk (i : Nat) (v : Buffer) : List (Nat × Buffer) → List (Nat × Buffer)
  | [] => [(i, v)]
  | (j, w) :: rest =>
    if i < j then (i, v) :: (j, w) :: rest
    else if i = j then (j, w) :: rest
    else (j, w) :: insertChunk i v rest

/-- `yasl::link::ChunkedMessage`: the assembler for one fragmented inbound
message.  `chunks_` is the `std::map<size_t, Buffer>` of received fragments
(kept index-sorted with unique indices), `message_size_` the accumulated
byte total. -/
structure ChunkedMessage where
  num_chunks_ : Nat
  chunks_ : List (Nat × Buffer)
  message_size_ : Nat
deriving DecidableEq

/-- `ChunkedMessage::ChunkedMessage(num_chunks)`: empty map, zero size. -/
def ChunkedMessage.init (num_chunks : Nat) : ChunkedMessage :=
  ⟨num_chunks, [], 0⟩

/-- `ChunkedMessage::AddChunk(index, data)`: `chunks_.emplace(index, data)`
(a no-op on the map when `index` is already present) followed by the
unconditional `message_size_ += data.size()`. -/
def ChunkedMessage.AddChunk (m : ChunkedMessage) (index : Nat) (data : Buffer) :
    ChunkedMessage :=
  { m with
    chunks_ := insertChunk index data m.chunks_
    message_size_ := m.message_size_ + data.length }

/-- `ChunkedMessage::NumChunks()`. -/
def ChunkedMessage.NumChunks (m : ChunkedMessage) : Nat := m.num_chunks_

/-- `ChunkedMessage::NumFilled()`: `chunks_.size()`. -/
def ChunkedMessage.NumFilled (m : ChunkedMessage) : Nat := m.chunks_.length

/-- `ChunkedMessage::IsFullyFilled()`: `chunks_.size() == num_chunks_`. -/
def ChunkedMessage.IsFullyFilled (m : ChunkedMessage) : Bool :=
  m.chunks_.length == m.num_chunks_

/-- `ChunkedMessage::Reassemble()`: allocates `Buffer out(message_size_)`,
memcpys the chunks in ascending index order, then clears the map and zeroes
`message_size_`.  Bytes of `out` past the copied region are never written
by the source (uninitialised memory); the model pins them to `0` — only
their number is meaningful. -/
def ChunkedMessage.Reassemble (m : ChunkedMessage) : Buffer × ChunkedMessage :=
  let content := (m.chunks_.map Prod.snd).flatten
  (content ++ List.replicate (m.message_size_ - content.length) 0,
   { m with chunks_ := [], message_size_ := 0 })

/-- `std::map<std::string, Buffer>::find`: first (unique) matching key. -/
def dbFind (db : List (Key × Buffer)) (k : Key) : Option Buffer :=
  match db with
  | [] => none
  | p :: rest => if p.1 = k then some p.2 else dbFind rest k

/-- `msg_db_.erase(itr)`: remove the entry found for `k`. -/
def dbErase (db : List (Key × Buffer)) (k : Key) : List (Key × Buffer) :=
  match db with
  | [] => []
  | p :: rest => if p.1 = k then rest else p :: dbErase rest k

/-- `msg_db_.emplace(key, v)`: insert only when the key is absent; the
`Bool` is the `.second` of the returned pair (whether insertion happened). -/
def dbEmplace (db : List (Key × Buffer)) (k : Key) (v : Buffer) :
    List (Key × Buffer) × Bool :=
  match dbFind db k with
  | some _ => (db, false)
  | none => (db ++ [(k, v)], true)

/-- Chunk table lookup (`chunked_values_.find(key)`). -/
def cvFind (cv : List (Key × ChunkedMessage)) (k : Key) : Option ChunkedMessage :=
  match cv with
  | [] => none
  | p :: rest => if p.1 = k then some p.2 else cvFind rest k

/-- `chunked_values_.erase(key)`. -/
def cvErase (cv : List (Key × ChunkedMessage)) (k : Key) :
    List (Key × ChunkedMessage) :=
  match cv with
  | [] => []
  | p :: rest => if p.1 = k then rest else p :: cvErase rest k

/-- Store the (mutated) assembler back for `key`; the C++ table holds a
`shared_ptr`, so `AddChunk` mutates in place — the model writes back. -/
def cvUpdate (cv : List (Key × ChunkedMessage)) (k : Key) (m : ChunkedMessage) :
    List (Key × ChunkedMessage) :=
  match cv with
  | [] => [(k, m)]
  | p :: rest => if p.1 = k then (k, m) :: rest else p :: cvUpdate rest k m

/-- `yasl::link::ChannelBase` state, fields as in `channel.h`/`channel.cc`. -/
structure ChannelBase where
  msg_db_ : List (Key × Buffer)
  chunked_values_ : List (Key × ChunkedMessage)
  sent_msg_count_ : Nat
  received_msg_count_ : Nat
  ack_msg_count_ : Nat
  peer_sent_msg_count_ : Nat
  received_fin_ : Bool
  waiting_finish_ : Bool
  recv_timeout_ms_ : Nat
  throttle_window_size_ : Nat
deriving DecidableEq

/-- A freshly constructed channel: empty stores, zero counters. -/
def ChannelBase.init (recv_timeout_ms throttle_window_size : Nat) : ChannelBase :=
  ⟨[], [], 0, 0, 0, 0, false, false, recv_timeout_ms, throttle_window_size⟩

/-- Decode an 8-byte little-endian unsigned integer, the portable reading
of the source's `memcpy(&peer_sent_msg_count_, value.data(), sizeof(size_t))`
on the little-endian hosts the code targets (spec §6 fixes little-endian). -/
def decodeLE : List Byte → Nat
  | [] => 0
  | b :: rest => b + 256 * decodeLE rest

/-- `ChannelBase::Recv(key)`.  Reserved keys are rejected up front.  The
`wait_for` predicate looks `key` up in `msg_db_`: the branch where it is
found is the successful wakeup (move the payload out, erase the entry,
then `SendAsyncImpl(kAckKey, {})` outside the lock); the branch where the
store does not contain `key` within `recv_timeout_ms_` is the
`YASL_THROW_IO_ERROR` timeout. -/
def ChannelBase.Recv (c : ChannelBase) (key : Key) :
    Except ChannelError Buffer × ChannelBase × List Event :=
  if key = kAckKey ∨ key = kFinKey then
    (.error .invalidKey, c, [])
  else
    match dbFind c.msg_db_ key with
    | some v =>
        (.ok v, { c with msg_db_ := dbErase c.msg_db_ key },
         [.sendMsg kAckKey []])
    | none => (.error .recvTimeout, c, [])

/-- `ChannelBase::OnNormalMessage(key, v)`: count the receipt; unless
draining, try to emplace into `msg_db_` (a duplicate key keeps the stored
payload and auto-acks); while draining, auto-ack without storing; always
`msg_db_cond_.notify_all()`. -/
def ChannelBase.OnNormalMessage (c : ChannelBase) (key : Key) (v : Buffer) :
    ChannelBase × List Event :=
  let c := { c with received_msg_count_ := c.received_msg_count_ + 1 }
  if !c.waiting_finish_ then
    match dbEmplace c.msg_db_ key v with
    | (db, true) => ({ c with msg_db_ := db }, [.notifyMsgDb])
    | (db, false) =>
        ({ c with msg_db_ := db }, [.sendMsg kAckKey [], .notifyMsgDb])
  else
    (c, [.sendMsg kAckKey [], .notifyMsgDb])

/-- `ChannelBase::OnMessage(key, value)`: ACK bumps `ack_msg_count_` and
wakes ack/fin waiters; FIN enforces an 8-byte payload, then (first arrival
only) records `peer_sent_msg_count_` and sets `received_fin_`; anything
else is a normal message. -/
def ChannelBase.OnMessage (c : ChannelBase) (key : Key) (value : Buffer) :
    Except ChannelError Unit × ChannelBase × List Event :=
  if key = kAckKey then
    (.ok (), { c with ack_msg_count_ := c.ack_msg_count_ + 1 },
     [.notifyAckFin])
  else if key = kFinKey then
    if value.length = 8 then
      if !c.received_fin_ then
        (.ok (),
         { c with received_fin_ := true,
                  peer_sent_msg_count_ := decodeLE value },
         [.notifyAckFin])
      else
        (.ok (), c, [])
    else
      (.error .protocolError, c, [])
  else
    let (c2, evs) := c.OnNormalMessage key value
    (.ok (), c2, evs)

/-- `ChannelBase::OnChunkedMessage(key, value, chunk_idx, num_chunks)`:
reserved keys and out-of-range indices are rejected; otherwise the chunk is
added to the (possibly fresh) assembler for `key`; when the assembler is
full it is removed from the table, reassembled and published through
`OnNormalMessage`.  The concurrent double-observation of fullness collapses
in this sequential model: the one remover publishes. -/
def ChannelBase.OnChunkedMessage (c : ChannelBase) (key : Key) (value : Buffer)
    (chunk_idx num_chunks : Nat) :
    Except ChannelError Unit × ChannelBase × List Event :=
  if key = kAckKey ∨ key = kFinKey then
    (.error .invalidKey, c, [])
  else if num_chunks ≤ chunk_idx then
    (.error .protocolError, c, [])
  else
    let data :=
      match cvFind c.chunked_values_ key with
      | some m => m
      | none => ChunkedMessage.init num_chunks
    let data := data.AddChunk chunk_idx value
    if data.IsFullyFilled then
      let (buf, _) := data.Reassemble
      let c := { c with chunked_values_ := cvErase c.chunked_values_ key }
      let (c2, evs) := c.OnNormalMessage key buf
      (.ok (), c2, evs)
    else
      (.ok (),
       { c with chunked_values_ := cvUpdate c.chunked_values_ key data }, [])

/-- `ChannelBase::SetRecvTimeout`. -/
def ChannelBase.SetRecvTimeout (c : ChannelBase) (t : Nat) : ChannelBase :=
  { c with recv_timeout_ms_ := t }

/-- `ChannelBase::GetRecvTimeout`. -/
def ChannelBase.GetRecvTimeout (c : ChannelBase) : Nat := c.recv_timeout_ms_

/-- `ChannelBase::ThrottleWindowWait(wait_count)`: no wait when the window
is disabled; otherwise the `wait_for` predicate
`throttle_window_size_ == 0 || ack_msg_count_ + throttle_window_size_ > wait_count`
either holds (wakeup) or never does within `recv_timeout_ms_`
(`YASL_THROW_IO_ERROR`). -/
def ChannelBase.ThrottleWindowWait (c : ChannelBase) (wait_count : Nat) :
    Except ChannelError Unit :=
  if c.throttle_window_size_ = 0 then .ok ()
  else if c.throttle_window_size_ = 0 ∨
          c.ack_msg_count_ + c.throttle_window_size_ > wait_count then .ok ()
  else .error .throttleTimeout

/-- `ChannelBase::Send(key, value)`: reserved-key enforce, `SendImpl`, then
`ThrottleWindowWait(sent_msg_count_.fetch_add(1) + 1)` — the counter is
advanced (and the message already handed to the transport) before the
throttle wait, so a throttle timeout propagates from the incremented
state. -/
def ChannelBase.Send (c : ChannelBase) (key : Key) (value : Buffer) :
    Except ChannelError Unit × ChannelBase × List Event :=
  if key = kAckKey ∨ key = kFinKey then
    (.error .invalidKey, c, [])
  else
    let c2 := { c with sent_msg_count_ := c.sent_msg_count_ + 1 }
    match c2.ThrottleWindowWait (c.sent_msg_count_ + 1) with
    | .ok _ => (.ok (), c2, [.sendMsg key value])
    | .error e => (.error e, c2, [.sendMsg key value])

/-- `ChannelBase::SendAsync(key, value)` (both overloads): identical to
`Send` except the hand-off is `SendAsyncImpl`. -/
def ChannelBase.SendAsync (c : ChannelBase) (key : Key) (value : Buffer) :
    Except ChannelError Unit × ChannelBase × List Event :=
  if key = kAckKey ∨ key = kFinKey then
    (.error .invalidKey, c, [])
  else
    let c2 := { c with sent_msg_count_ := c.sent_msg_count_ + 1 }
    match c2.ThrottleWindowWait (c.sent_msg_count_ + 1) with
    | .ok _ => (.ok (), c2, [.sendMsg key value])
    | .error e => (.error e, c2, [.sendMsg key value])

/-- `ChannelBase::StopReceivingAndAckUnreadMsgs`: set `waiting_finish_`,
emit one ACK per unread entry of `msg_db_`, then clear the store. -/
def ChannelBase.StopReceivingAndAckUnreadMsgs (c : ChannelBase) :
    ChannelBase × List Event :=
  ({ c with waiting_finish_ := true, msg_db_ := [] },
   c.msg_db_.map (fun _ => Event.sendMsg kAckKey []))

/-- `ChannelBase::WaitForFinAndFlyingMsg`: sends the FIN carrying the
`sent_msg_count_` snapshot (little-endian, 8 bytes in the model), then
only waits on predicates — no state mutation. -/
def ChannelBase.WaitForFinAndFlyingMsg (c : ChannelBase) :
    ChannelBase × List Event :=
  (c, [.sendMsg kFinKey
        ((List.range 8).map fun i => c.sent_msg_count_ / 256 ^ i % 256)])

/-- `ChannelBase::WaitForFlyingAck`: wait only, no state mutation. -/
def ChannelBase.WaitForFlyingAck (c : ChannelBase) : ChannelBase × List Event :=
  (c, [])

/-- One channel operation, as a step relation on `ChannelBase` states.
Each constructor relates a state to the state left behind by the
corresponding operation (on every branch, errors included, since the C++
object survives a thrown exception). -/
inductive ChannelBase.Step : ChannelBase → ChannelBase → Prop
  | onMessage (c : ChannelBase) (key : Key) (value : Buffer) :
      ChannelBase.Step c (c.OnMessage key value).2.1
  | onNormalMessage (c : ChannelBase) (key : Key) (v : Buffer) :
      ChannelBase.Step c (c.OnNormalMessage key v).1
  | onChunkedMessage (c : ChannelBase) (key : Key) (value : Buffer)
      (chunk_idx num_chunks : Nat) :
      ChannelBase.Step c (c.OnChunkedMessage key value chunk_idx num_chunks).2.1
  | recv (c : ChannelBase) (key : Key) :
      ChannelBase.Step c (c.Recv key).2.1
  | send (c : ChannelBase) (key : Key) (value : Buffer) :
      ChannelBase.Step c (c.Send key value).2.1
  | sendAsync (c : ChannelBase) (key : Key) (value : Buffer) :
      ChannelBase.Step c (c.SendAsync key value).2.1
  | setRecvTimeout (c : ChannelBase) (t : Nat) :
      ChannelBase.Step c (c.SetRecvTimeout t)
  | stopReceiving (c : ChannelBase) :
      ChannelBase.Step c c.StopReceivingAndAckUnreadMsgs.1
  | waitForFin (c : ChannelBase) :
      ChannelBase.Step c c.WaitForFinAndFlyingMsg.1
  | waitForFlyingAck (c : ChannelBase) :
      ChannelBase.Step c c.WaitForFlyingAck.1

/-- Invariant I1: every entry of the inbound store corresponds to a counted
receipt. -/
def ChannelBase.Inv (c : ChannelBase) : Prop :=
  c.msg_db_.length ≤ c.received_msg_count_

instance (c : ChannelBase) : Decidable c.Inv := by
  unfold ChannelBase.Inv; infer_instance

/-- The `blake3_hasher` context of the third-party blake3 library, modelled
(the library is external to this repository) as the stream of bytes
absorbed since `blake3_hasher_init`. -/
structure blake3_hasher where
  absorbed : List Byte
deriving DecidableEq

/-- `yasl::crypto::Blake3Hash`, fields from `blake3_hash.h`: the hasher
context and the configured digest size. -/
structure Blake3Hash where
  hasher_ctx_ : blake3_hasher
  digest_size_ : Nat
deriving DecidableEq

/-- `Blake3Hash::Blake3Hash()` / `Init()`: fresh context (digest size
`BLAKE3_OUT_LEN = 32` for the default constructor). -/
def Blake3Hash.init (digest_size : Nat) : Blake3Hash :=
  ⟨⟨[]⟩, digest_size⟩

/-- `Blake3Hash::DigestSize()`. -/
def Blake3Hash.DigestSize (h : Blake3Hash) : Nat := h.digest_size_

/-- `Blake3Hash::Reset()`: re-init the context, digest size kept. -/
def Blake3Hash.Reset (h : Blake3Hash) : Blake3Hash :=
  ⟨⟨[]⟩, h.digest_size_⟩

/-- `Blake3Hash::Update(data)`: `blake3_hasher_update` absorbs the bytes. -/
def Blake3Hash.Update (h : Blake3Hash) (data : Buffer) : Blake3Hash :=
  ⟨⟨h.hasher_ctx_.absorbed ++ data⟩, h.digest_size_⟩

/-- `Blake3Hash::CumulativeHash()` (a `const` member): copies the context
into `blake3_ctx_snapshot`, allocates a `digest_size_`-byte vector, and
finalizes the snapshot into it.  `blake3_hasher_finalize` belongs to the
external blake3 library; it is modelled by an arbitrary per-byte digest
function `f` of the absorbed stream, writing byte `f absorbed i` at
position `i` for each `i < digest_size_`.  The member returns the digest
together with the (untouched) object. -/
def Blake3Hash.CumulativeHash (f : List Byte → Nat → Byte) (h : Blake3Hash) :
    List Byte × Blake3Hash :=
  let snapshot := h.hasher_ctx_
  ((List.range h.digest_size_).map (f snapshot.absorbed), h)

/-- An example channel used to instantiate hypotheses on concrete inputs:
one unread message under key `[1]`, matching counters, throttle window 2. -/
def exampleChannel : ChannelBase :=
  ⟨[([1], [9, 9])], [], 0, 1, 0, 0, false, false, 1000, 2⟩

/-- A channel whose next send must time out in the throttle wait:
window 1, no acks observed. -/
def throttledChannel : ChannelBase :=
  ⟨[], [], 0, 0, 0, 0, false, false, 1000, 1⟩

/-- Strict order on chunk-map entries by index: the iteration order of
`std::map<size_t, Buffer>`. -/
def chunkLT (a b : Nat × Buffer) : Prop := a.1 < b.1

instance : DecidableRel chunkLT := fun a b => Nat.decLt a.1 b.1

instance : IsAntisymm (Nat × Buffer) chunkLT :=
  ⟨fun _ _ h1 h2 => absurd (Nat.lt_trans h1 h2) (Nat.lt_irrefl _)⟩

/-- Build one `ChunkedMessage(n)` and feed it a list of `(index, data)`
fragments through `AddChunk`, in arrival order. -/
def assembleAll (n : Nat) (arrival : List (Nat × Buffer)) : ChunkedMessage :=
  arrival.foldl (fun m p => m.AddChunk p.1 p.2) (ChunkedMessage.init n)

/-- Concrete fragment family for instantiating reassembly statements. -/
def exampleChunks : Nat → Buffer :=
  fun i => if i = 0 then [1, 2] else if i = 1 then [3] else []

/-- An assembler that already holds chunk `0` (payload `[5]`, size 1),
used to instantiate the duplicate-index statements. -/
def duplicatedAssembler : ChunkedMessage := ⟨2, [(0, [5])], 1⟩

/-! Helper lemmas about the chunk map. -/

theorem insertChunk_fresh_perm (i : Nat) (v : Buffer) (l : List (Nat × Buffer))
    (h : i ∉ l.map Prod.fst) : insertChunk i v l ~ (i, v) :: l := by
  induction l with
  | nil => simp [insertChunk]
  | cons p rest ih =>
    obtain ⟨j, w⟩ := p
    simp only [List.map_cons, List.mem_cons] at h
    push_neg at h
    obtain ⟨hne, hmem⟩ := h
    rw [insertChunk]
    by_cases h1 : i < j
    · rw [if_pos h1]
    · rw [if_neg h1, if_neg hne]
      exact ((ih hmem).cons (j, w)).trans (List.Perm.swap (i, v) (j, w) rest)

theorem insertChunk_keys_perm (i : Nat) (v : Buffer) (l : List (Nat × Buffer))
    (h : i ∉ l.map Prod.fst) :
    (insertChunk i v l).map Prod.fst ~ i :: l.map Prod.fst := by
  simpa using (insertChunk_fresh_perm i v l h).map Prod.fst

theorem insertChunk_sorted (i : Nat) (v : Buffer) (l : List (Nat × Buffer))
    (hs : l.Pairwise chunkLT) (h : i ∉ l.map Prod.fst) :
    (insertChunk i v l).Pairwise chunkLT := by
  induction l with
  | nil => simp [insertChunk, chunkLT]
  | cons p rest ih =>
    obtain ⟨j, w⟩ := p
    simp only [List.map_cons, List.mem_cons] at h
    push_neg at h
    obtain ⟨hne, hmem⟩ := h
    rw [List.pairwise_cons] at hs
    obtain ⟨hj, hrest⟩ := hs
    rw [insertChunk]
    by_cases h1 : i < j
    · rw [if_pos h1]
      refine List.pairwise_cons.mpr ⟨?_, List.pairwise_cons.mpr ⟨hj, hrest⟩⟩
      intro b hb
      rcases List.mem_cons.mp hb with hb | hb
      · subst hb; exact h1
      · exact Nat.lt_trans h1 (hj b hb)
    · rw [if_neg h1, if_neg hne]
      refine List.pairwise_cons.mpr ⟨?_, ih hrest hmem⟩
      intro b hb
      have hb2 : b ∈ (i, v) :: rest :=
        (insertChunk_fresh_perm i v rest hmem).mem_iff.mp hb
      rcases List.mem_cons.mp hb2 with hb2 | hb2
      · subst hb2
        exact Nat.lt_of_le_of_ne (Nat.le_of_not_lt h1) (Ne.symm hne)
      · exact hj b hb2

theorem insertChunk_present (i : Nat) (v : Buffer) (l : List (Nat × Buffer))
    (hs : l.Pairwise chunkLT) (h : i ∈ l.map Prod.fst) :
    insertChunk i v l = l := by
  induction l with
  | nil => simp at h
  | cons p rest ih =>
    obtain ⟨j, w⟩ := p
    simp only [List.map_cons, List.mem_cons] at h
    rw [List.pairwise_cons] at hs
    obtain ⟨hj, hrest⟩ := hs
    rw [insertChunk]
    rcases h with h | h
    · subst h
      rw [if_neg (Nat.lt_irrefl i), if_pos rfl]
    · have hji : j < i := by
        rcases List.mem_map.mp h with ⟨b, hb, hb2⟩
        subst hb2
        exact hj b hb
      rw [if_neg (Nat.not_lt.mpr (Nat.le_of_lt hji)),
          if_neg (Ne.symm (Nat.ne_of_lt hji)), ih hrest h]

theorem foldInsert_spec (L : List (Nat × Buffer)) (acc : List (Nat × Buffer))
    (hs : acc.Pairwise chunkLT)
    (hnd : (acc.map Prod.fst ++ L.map Prod.fst).Nodup) :
    (L.foldl (fun a p => insertChunk p.1 p.2 a) acc) ~ acc ++ L ∧
    (L.foldl (fun a p => insertChunk p.1 p.2 a) acc).Pairwise chunkLT := by
  induction L generalizing acc with
  | nil =>
    simp only [List.foldl_nil]
    exact ⟨by simp, hs⟩
  | cons p L ih =>
    obtain ⟨i, v⟩ := p
    simp only [List.map_cons] at hnd
    have hdis := (List.nodup_append.mp hnd).2.2
    have hfresh : i ∉ acc.map Prod.fst := by
      intro hmem
      exact hdis hmem (List.mem_cons_self i _)
    have hperm1 : (acc.map Prod.fst ++ i :: L.map Prod.fst) ~
        ((insertChunk i v acc).map Prod.fst ++ L.map Prod.fst) := by
      calc acc.map Prod.fst ++ i :: L.map Prod.fst
          ~ i :: (acc.map Prod.fst ++ L.map Prod.fst) := List.perm_middle
        _ = (i :: acc.map Prod.fst) ++ L.map Prod.fst := rfl
        _ ~ (insertChunk i v acc).map Prod.fst ++ L.map Prod.fst :=
            ((insertChunk_keys_perm i v acc hfresh).symm).append_right _
    obtain ⟨hp, hsort⟩ := ih (insertChunk i v acc)
      (insertChunk_sorted i v acc hs hfresh) (hperm1.nodup hnd)
    refine ⟨?_, hsort⟩
    calc (L.foldl (fun a p => insertChunk p.1 p.2 a) (insertChunk i v acc))
        ~ insertChunk i v acc ++ L := hp
      _ ~ ((i, v) :: acc) ++ L :=
          (insertChunk_fresh_perm i v acc hfresh).append_right _
      _ = (i, v) :: (acc ++ L) := rfl
      _ ~ acc ++ (i, v) :: L := List.perm_middle.symm

theorem foldAdd_components (L : List (Nat × Buffer)) (m : ChunkedMessage) :
    (L.foldl (fun m p => m.AddChunk p.1 p.2) m).num_chunks_ = m.num_chunks_ ∧
    (L.foldl (fun m p => m.AddChunk p.1 p.2) m).chunks_ =
      L.foldl (fun a p => insertChunk p.1 p.2 a) m.chunks_ ∧
    (L.foldl (fun m p => m.AddChunk p.1 p.2) m).message_size_ =
      m.message_size_ + (L.map fun p => p.2.length).sum := by
  induction L generalizing m with
  | nil => simp
  | cons p L ih =>
    obtain ⟨hn, hc, hs⟩ := ih (m.AddChunk p.1 p.2)
    refine ⟨hn, hc, ?_⟩
    rw [List.foldl_cons, hs]
    simp [ChunkedMessage.AddChunk]
    omega

theorem target_sorted (n : Nat) (c : Nat → Buffer) :
    (((List.range n).map fun i => (i, c i)).Pairwise chunkLT) :=
  List.Pairwise.map _ (fun _ _ h => h) (List.pairwise_lt_range n)

/-- C2: for every `n ≥ 1` and family of chunks `c 0 .. c (n-1)`, each added
exactly once (in any arrival order) to a single `ChunkedMessage(n)`,
`Reassemble` returns the concatenation `c 0 ++ c 1 ++ … ++ c (n-1)` in
ascending index order, and the returned buffer's size equals the sum of the
chunk sizes. -/
theorem ChunkedMessage.reassemble_ordered (n : Nat) (c : Nat → Buffer)
    (arrival : List (Nat × Buffer)) (_hn : 1 ≤ n)
    (hperm : arrival ~ (List.range n).map fun i => (i, c i)) :
    ((assembleAll n arrival).Reassemble).1 = ((List.range n).map c).flatten ∧
    ((assembleAll n arrival).Reassemble).1.length =
      (((List.range n).map c).map List.length).sum := by
  obtain ⟨hnum, hchunks, hsize⟩ :=
    foldAdd_components arrival (ChunkedMessage.init n)
  have hkeys : arrival.map Prod.fst ~ List.range n := by
    have h := hperm.map Prod.fst
    simpa [List.map_map, Function.comp_def] using h
  have hnd : ((([] : List (Nat × Buffer)).map Prod.fst) ++
      arrival.map Prod.fst).Nodup := by
    simpa using hkeys.symm.nodup (List.nodup_range n)
  obtain ⟨hpermF, hsorted⟩ := foldInsert_spec arrival [] List.Pairwise.nil hnd
  have hchunks_eq : (assembleAll n arrival).chunks_ =
      (List.range n).map fun i => (i, c i) := by
    rw [assembleAll, hchunks]
    refine List.eq_of_perm_of_sorted ?_ hsorted (target_sorted n c)
    exact hpermF.trans hperm
  have hcontent : ((assembleAll n arrival).chunks_.map Prod.snd) =
      (List.range n).map c := by
    rw [hchunks_eq]
    simp [List.map_map, Function.comp_def]
  have hsum : (arrival.map fun p => p.2.length).sum =
      (((List.range n).map c).map List.length).sum := by
    have h := (hperm.map fun p => p.2.length).sum_eq
    simpa [List.map_map, Function.comp_def] using h
  have hsize2 : (assembleAll n arrival).message_size_ =
      (((List.range n).map c).map List.length).sum := by
    rw [assembleAll, hsize, ← hsum]
    simp [ChunkedMessage.init]
  have hflat_len : (((List.range n).map c).flatten).length =
      (((List.range n).map c).map List.length).sum := by
    simp
  have main : ((assembleAll n arrival).Reassemble).1 =
      ((List.range n).map c).flatten := by
    simp only [ChunkedMessage.Reassemble]
    rw [hcontent, hsize2, hflat_len, Nat.sub_self]
    simp
  exact ⟨main, by rw [main, hflat_len]⟩

/-- Witness for the reassembly theorem: two fragments arriving out of
order reassemble to the in-order concatenation. -/
theorem ChunkedMessage.reassemble_ordered_witness :
    1 ≤ 2 ∧
    ([(1, exampleChunks 1), (0, exampleChunks 0)] ~
      (List.range 2).map fun i => (i, exampleChunks i)) ∧
    ((assembleAll 2 [(1, exampleChunks 1), (0, exampleChunks 0)]).Reassemble).1 =
      ((List.range 2).map exampleChunks).flatten :=
  ⟨by decide, by decide,
   (ChunkedMessage.reassemble_ordered 2 exampleChunks
     [(1, exampleChunks 1), (0, exampleChunks 0)] (by decide) (by decide)).1⟩

/-- C1: `Recv(k)` on a reserved key fails with `InvalidKey` and leaves the
store untouched; on a non-reserved key it succeeds exactly when the inbound
store holds `k` (the successful wakeup of the timed wait), removing the
entry, emitting exactly one ACK and returning the stored payload; when the
store never holds `k` within the timeout it fails with `RecvTimeout`,
leaving the state unchanged. -/
theorem ChannelBase.recv_spec (c : ChannelBase) (key : Key) :
    ((key = kAckKey ∨ key = kFinKey) →
        c.Recv key = (.error .invalidKey, c, [])) ∧
    (key ≠ kAckKey → key ≠ kFinKey →
      (∀ v, dbFind c.msg_db_ key = some v →
          c.Recv key =
            (.ok v, { c with msg_db_ := dbErase c.msg_db_ key },
             [.sendMsg kAckKey []])) ∧
      (dbFind c.msg_db_ key = none →
          c.Recv key = (.error .recvTimeout, c, []))) := by
  refine ⟨fun h => ?_, fun h1 h2 => ⟨fun v hv => ?_, fun hn => ?_⟩⟩
  · simp [ChannelBase.Recv, h]
  · simp [ChannelBase.Recv, h1, h2, hv]
  · simp [ChannelBase.Recv, h1, h2, hn]

/-- Witness for `recv_spec`: on the example channel, `Recv [1]` returns the
stored payload, removes it and acks; `Recv` on the ACK key is rejected. -/
theorem ChannelBase.recv_spec_witness :
    dbFind exampleChannel.msg_db_ [1] = some [9, 9] ∧
    exampleChannel.Recv [1] =
      (.ok [9, 9], { exampleChannel with msg_db_ := [] },
       [.sendMsg kAckKey []]) ∧
    exampleChannel.Recv kAckKey = (.error .invalidKey, exampleChannel, []) := by
  refine ⟨by decide, ?_, ?_⟩
  · have h := ((ChannelBase.recv_spec exampleChannel [1]).2
      (by decide) (by decide)).1 [9, 9] (by decide)
    simpa [exampleChannel] using h
  · exact (ChannelBase.recv_spec exampleChannel kAckKey).1 (Or.inl rfl)

/-! Reduction lemmas for the channel operations (shared helpers). -/

theorem throttleWindowWait_cases (c : ChannelBase) (w : Nat) :
    c.ThrottleWindowWait w = .ok () ∨
    c.ThrottleWindowWait w = .error .throttleTimeout := by
  unfold ChannelBase.ThrottleWindowWait
  split
  · exact Or.inl rfl
  · split
    · exact Or.inl rfl
    · exact Or.inr rfl

theorem throttleWindowWait_spec (c : ChannelBase) (w : Nat) :
    (c.throttle_window_size_ = 0 → c.ThrottleWindowWait w = .ok ()) ∧
    (c.throttle_window_size_ ≠ 0 →
      (c.ack_msg_count_ + c.throttle_window_size_ > w →
          c.ThrottleWindowWait w = .ok ()) ∧
      (¬ c.ack_msg_count_ + c.throttle_window_size_ > w →
          c.ThrottleWindowWait w = .error .throttleTimeout)) := by
  refine ⟨fun h => ?_, fun h => ⟨fun hgt => ?_, fun hle => ?_⟩⟩
  · simp [ChannelBase.ThrottleWindowWait, h]
  · simp [ChannelBase.ThrottleWindowWait, h, hgt]
  · simp [ChannelBase.ThrottleWindowWait, h, hle]

theorem send_reduce (c : ChannelBase) (key : Key) (value : Buffer)
    (h : ¬(key = kAckKey ∨ key = kFinKey)) :
    c.Send key value =
      (({ c with sent_msg_count_ := c.sent_msg_count_ + 1 }).ThrottleWindowWait
          (c.sent_msg_count_ + 1),
       { c with sent_msg_count_ := c.sent_msg_count_ + 1 },
       [.sendMsg key value]) := by
  rw [ChannelBase.Send, if_neg h]
  rcases throttleWindowWait_cases
    { c with sent_msg_count_ := c.sent_msg_count_ + 1 }
    (c.sent_msg_count_ + 1) with hX | hX <;> simp only [hX]

theorem sendAsync_reduce (c : ChannelBase) (key : Key) (value : Buffer)
    (h : ¬(key = kAckKey ∨ key = kFinKey)) :
    c.SendAsync key value =
      (({ c with sent_msg_count_ := c.sent_msg_count_ + 1 }).ThrottleWindowWait
          (c.sent_msg_count_ + 1),
       { c with sent_msg_count_ := c.sent_msg_count_ + 1 },
       [.sendMsg key value]) := by
  rw [ChannelBase.SendAsync, if_neg h]
  rcases throttleWindowWait_cases
    { c with sent_msg_count_ := c.sent_msg_count_ + 1 }
    (c.sent_msg_count_ + 1) with hX | hX <;> simp only [hX]

theorem onNormal_reduce_wait (c : ChannelBase) (key : Key) (v : Buffer)
    (hw : c.waiting_finish_ = true) :
    c.OnNormalMessage key v =
      ({ c with received_msg_count_ := c.received_msg_count_ + 1 },
       [.sendMsg kAckKey [], .notifyMsgDb]) := by
  simp [ChannelBase.OnNormalMessage, hw]

theorem onNormal_reduce_dup (c : ChannelBase) (key : Key) (v w : Buffer)
    (hw : c.waiting_finish_ = false)
    (hf : dbFind c.msg_db_ key = some w) :
    c.OnNormalMessage key v =
      ({ c with received_msg_count_ := c.received_msg_count_ + 1 },
       [.sendMsg kAckKey [], .notifyMsgDb]) := by
  simp [ChannelBase.OnNormalMessage, hw, dbEmplace, hf]

theorem onNormal_reduce_fresh (c : ChannelBase) (key : Key) (v : Buffer)
    (hw : c.waiting_finish_ = false)
    (hf : dbFind c.msg_db_ key = none) :
    c.OnNormalMessage key v =
      ({ c with msg_db_ := c.msg_db_ ++ [(key, v)],
                received_msg_count_ := c.received_msg_count_ + 1 },
       [.notifyMsgDb]) := by
  simp [ChannelBase.OnNormalMessage, hw, dbEmplace, hf]

/-- C3: `Send`/`SendAsync` increment `sent_msg_count_` by one (fetch-and-add)
and the post-increment value is the wait count handed to
`ThrottleWindowWait`; with `throttle_window_size_ == 0` the wait returns
immediately; otherwise the call succeeds exactly when
`ack_msg_count_ + throttle_window_size_ > w` and raises `ThrottleTimeout`
when the predicate never becomes true within the timeout. -/
theorem ChannelBase.send_throttle_spec (c : ChannelBase) (key : Key)
    (value : Buffer) (h1 : key ≠ kAckKey) (h2 : key ≠ kFinKey) :
    (c.Send key value).2.1.sent_msg_count_ = c.sent_msg_count_ + 1 ∧
    (c.SendAsync key value).2.1.sent_msg_count_ = c.sent_msg_count_ + 1 ∧
    (c.Send key value).1 =
      ({ c with sent_msg_count_ := c.sent_msg_count_ + 1 }).ThrottleWindowWait
        (c.sent_msg_count_ + 1) ∧
    (c.SendAsync key value).1 = (c.Send key value).1 ∧
    (c.throttle_window_size_ = 0 → (c.Send key value).1 = .ok ()) ∧
    (c.throttle_window_size_ ≠ 0 →
      (c.ack_msg_count_ + c.throttle_window_size_ > c.sent_msg_count_ + 1 →
          (c.Send key value).1 = .ok ()) ∧
      (¬ c.ack_msg_count_ + c.throttle_window_size_ > c.sent_msg_count_ + 1 →
          (c.Send key value).1 = .error .throttleTimeout)) := by
  have hcond : ¬(key = kAckKey ∨ key = kFinKey) := not_or.mpr ⟨h1, h2⟩
  have hs := send_reduce c key value hcond
  have ha := sendAsync_reduce c key value hcond
  have ht := throttleWindowWait_spec
    { c with sent_msg_count_ := c.sent_msg_count_ + 1 } (c.sent_msg_count_ + 1)
  refine ⟨by rw [hs], by rw [ha], by rw [hs], by rw [ha, hs],
    fun h0 => ?_, fun hn0 => ⟨fun hgt => ?_, fun hle => ?_⟩⟩
  · rw [hs]; exact ht.1 h0
  · rw [hs]; exact (ht.2 hn0).1 hgt
  · rw [hs]; exact (ht.2 hn0).2 hle

/-- Witness for `send_throttle_spec`: a send on the example channel
(window 2, no outstanding sends) advances the counter and passes the
throttle wait. -/
theorem ChannelBase.send_throttle_spec_witness :
    (exampleChannel.Send [1] [2]).2.1.sent_msg_count_ =
      exampleChannel.sent_msg_count_ + 1 ∧
    (exampleChannel.Send [1] [2]).1 = .ok () :=
  ⟨(ChannelBase.send_throttle_spec exampleChannel [1] [2]
      (by decide) (by decide)).1,
   ((ChannelBase.send_throttle_spec exampleChannel [1] [2]
      (by decide) (by decide)).2.2.2.2.2 (by decide)).1 (by decide)⟩

/-- C4: `OnMessage` on the reserved FIN key fails with `ProtocolError`
unless the payload is exactly 8 bytes; the first well-formed FIN decodes
the payload as an 8-byte little-endian integer into
`peer_sent_msg_count_` and sets `received_fin_`; any later FIN arrival is
ignored and changes nothing. -/
theorem ChannelBase.onMessage_fin_spec (c : ChannelBase) (value : Buffer) :
    (value.length ≠ 8 →
        c.OnMessage kFinKey value = (.error .protocolError, c, [])) ∧
    (value.length = 8 → c.received_fin_ = false →
        c.OnMessage kFinKey value =
          (.ok (),
           { c with received_fin_ := true,
                    peer_sent_msg_count_ := decodeLE value },
           [.notifyAckFin])) ∧
    (value.length = 8 → c.received_fin_ = true →
        c.OnMessage kFinKey value = (.ok (), c, [])) := by
  refine ⟨fun h => ?_, fun h hf => ?_, fun h hf => ?_⟩
  · simp [ChannelBase.OnMessage, h, kAckKey, kFinKey]
  · simp [ChannelBase.OnMessage, h, hf, kAckKey, kFinKey]
  · simp [ChannelBase.OnMessage, h, hf, kAckKey, kFinKey]

/-- Witness for `onMessage_fin_spec`: a first FIN with payload
`[3,0,0,0,0,0,0,0]` records `peer_sent_msg_count_ = 3`; a 2-byte FIN is a
protocol error. -/
theorem ChannelBase.onMessage_fin_spec_witness :
    exampleChannel.OnMessage kFinKey [3, 0, 0, 0, 0, 0, 0, 0] =
      (.ok (),
       { exampleChannel with received_fin_ := true,
                             peer_sent_msg_count_ := 3 },
       [.notifyAckFin]) ∧
    exampleChannel.OnMessage kFinKey [1, 2] =
      (.error .protocolError, exampleChannel, []) := by
  constructor
  · exact (ChannelBase.onMessage_fin_spec exampleChannel
      [3, 0, 0, 0, 0, 0, 0, 0]).2.1 (by decide) (by decide)
  · exact (ChannelBase.onMessage_fin_spec exampleChannel [1, 2]).1 (by decide)

/-- C5: `OnNormalMessage(key, payload)` always counts the receipt exactly
once and wakes the receive waiters; while draining it drops the payload
and auto-acks; otherwise a duplicate key keeps the stored payload
(first writer wins), drops the new one and acks, while a fresh key is
inserted with no ACK emitted. -/
theorem ChannelBase.onNormalMessage_spec (c : ChannelBase) (key : Key)
    (v : Buffer) :
    (c.OnNormalMessage key v).1.received_msg_count_ =
      c.received_msg_count_ + 1 ∧
    (c.waiting_finish_ = true →
        (c.OnNormalMessage key v).1.msg_db_ = c.msg_db_ ∧
        (c.OnNormalMessage key v).2 = [.sendMsg kAckKey [], .notifyMsgDb]) ∧
    (c.waiting_finish_ = false →
      (∀ w, dbFind c.msg_db_ key = some w →
          (c.OnNormalMessage key v).1.msg_db_ = c.msg_db_ ∧
          dbFind (c.OnNormalMessage key v).1.msg_db_ key = some w ∧
          (c.OnNormalMessage key v).2 =
            [.sendMsg kAckKey [], .notifyMsgDb]) ∧
      (dbFind c.msg_db_ key = none →
          (c.OnNormalMessage key v).1.msg_db_ = c.msg_db_ ++ [(key, v)] ∧
          (c.OnNormalMessage key v).2 = [.notifyMsgDb])) ∧
    Event.notifyMsgDb ∈ (c.OnNormalMessage key v).2 := by
  refine ⟨?_, fun hw => ?_, fun hw => ⟨fun w hfind => ?_, fun hfind => ?_⟩, ?_⟩
  · cases hw : c.waiting_finish_
    · cases hf : dbFind c.msg_db_ key
      · rw [onNormal_reduce_fresh c key v hw hf]
      · rw [onNormal_reduce_dup c key v _ hw hf]
    · rw [onNormal_reduce_wait c key v hw]
  · rw [onNormal_reduce_wait c key v hw]
    exact ⟨rfl, rfl⟩
  · rw [onNormal_reduce_dup c key v w hw hfind]
    exact ⟨rfl, hfind, rfl⟩
  · rw [onNormal_reduce_fresh c key v hw hfind]
    exact ⟨rfl, rfl⟩
  · cases hw : c.waiting_finish_
    · cases hf : dbFind c.msg_db_ key
      · rw [onNormal_reduce_fresh c key v hw hf]; simp
      · rw [onNormal_reduce_dup c key v _ hw hf]; simp
    · rw [onNormal_reduce_wait c key v hw]; simp

/-- Witness for `onNormalMessage_spec`: a fresh key is stored with no ACK;
the duplicate key `[1]` is dropped with an ACK. -/
theorem ChannelBase.onNormalMessage_spec_witness :
    (exampleChannel.OnNormalMessage [2] [7]).1.received_msg_count_ =
      exampleChannel.received_msg_count_ + 1 ∧
    (exampleChannel.OnNormalMessage [2] [7]).1.msg_db_ =
      exampleChannel.msg_db_ ++ [([2], [7])] ∧
    (exampleChannel.OnNormalMessage [2] [7]).2 = [.notifyMsgDb] ∧
    (exampleChannel.OnNormalMessage [1] [7]).1.msg_db_ =
      exampleChannel.msg_db_ ∧
    (exampleChannel.OnNormalMessage [1] [7]).2 =
      [.sendMsg kAckKey [], .notifyMsgDb] := by
  have h1 := ChannelBase.onNormalMessage_spec exampleChannel [2] [7]
  have h2 := ChannelBase.onNormalMessage_spec exampleChannel [1] [7]
  have hfresh := (h1.2.2.1 (by decide)).2 (by decide)
  have hdup := (h2.2.2.1 (by decide)).1 [9, 9] (by decide)
  exact ⟨h1.1, hfresh.1, hfresh.2, hdup.1, hdup.2.2⟩

/-- C6: `Send`, `SendAsync`, `Recv` and `OnChunkedMessage` all reject the
two reserved control keys with `InvalidKey`, deterministically and without
touching the state, and never raise `InvalidKey` for a non-reserved key. -/
theorem ChannelBase.reserved_keys_spec (c : ChannelBase) (value : Buffer)
    (chunk_idx num_chunks : Nat) (key : Key) :
    ((key = kAckKey ∨ key = kFinKey) →
        c.Send key value = (.error .invalidKey, c, []) ∧
        c.SendAsync key value = (.error .invalidKey, c, []) ∧
        c.Recv key = (.error .invalidKey, c, []) ∧
        c.OnChunkedMessage key value chunk_idx num_chunks =
          (.error .invalidKey, c, [])) ∧
    (key ≠ kAckKey → key ≠ kFinKey →
        (c.Send key value).1 ≠ .error .invalidKey ∧
        (c.SendAsync key value).1 ≠ .error .invalidKey ∧
        (c.Recv key).1 ≠ .error .invalidKey ∧
        (c.OnChunkedMessage key value chunk_idx num_chunks).1 ≠
          .error .invalidKey) := by
  constructor
  · intro h
    refine ⟨?_, ?_, ?_, ?_⟩ <;>
      simp [ChannelBase.Send, ChannelBase.SendAsync, ChannelBase.Recv,
        ChannelBase.OnChunkedMessage, h]
  · intro h1 h2
    have hcond : ¬(key = kAckKey ∨ key = kFinKey) := not_or.mpr ⟨h1, h2⟩
    refine ⟨?_, ?_, ?_, ?_⟩
    · rw [send_reduce c key value hcond]
      rcases throttleWindowWait_cases
        { c with sent_msg_count_ := c.sent_msg_count_ + 1 }
        (c.sent_msg_count_ + 1) with hX | hX <;> simp [hX]
    · rw [sendAsync_reduce c key value hcond]
      rcases throttleWindowWait_cases
        { c with sent_msg_count_ := c.sent_msg_count_ + 1 }
        (c.sent_msg_count_ + 1) with hX | hX <;> simp [hX]
    · rw [ChannelBase.Recv, if_neg hcond]
      cases hf : dbFind c.msg_db_ key <;> simp [hf]
    · rw [ChannelBase.OnChunkedMessage, if_neg hcond]
      by_cases hr : num_chunks ≤ chunk_idx
      · simp [hr]
      · simp only [if_neg hr]
        split <;> simp

/-- Witness for `reserved_keys_spec`: both reserved keys are rejected by
`Recv` on the example channel; the plain key `[1]` is not. -/
theorem ChannelBase.reserved_keys_spec_witness :
    exampleChannel.Recv kAckKey = (.error .invalidKey, exampleChannel, []) ∧
    exampleChannel.Recv kFinKey = (.error .invalidKey, exampleChannel, []) ∧
    (exampleChannel.Recv [1]).1 ≠ .error .invalidKey :=
  ⟨((ChannelBase.reserved_keys_spec exampleChannel [] 0 1 kAckKey).1
      (Or.inl rfl)).2.2.1,
   ((ChannelBase.reserved_keys_spec exampleChannel [] 0 1 kFinKey).1
      (Or.inr rfl)).2.2.1,
   ((ChannelBase.reserved_keys_spec exampleChannel [] 0 1 [1]).2
      (by decide) (by decide)).2.2.1⟩

/-- Counterexample to C7 as stated: on a channel with throttle window 1 and
no acks, `Send` raises `ThrottleTimeout`, yet `sent_msg_count_` has been
advanced by the fetch-and-add that precedes the throttle wait (and the
message was already handed to the transport), so the post-call state is
not the pre-call state. -/
theorem ChannelBase.timeout_counterexample :
    (throttledChannel.Send [1] []).1 = .error .throttleTimeout ∧
    (throttledChannel.Send [1] []).2.1.sent_msg_count_ ≠
      throttledChannel.sent_msg_count_ ∧
    (throttledChannel.Send [1] []).2.2 = [.sendMsg [1] []] :=
  ⟨rfl, by decide, rfl⟩

/-- C7 (amended): a `Recv` that times out leaves the channel state exactly
unchanged (and emits nothing); a `Send`/`SendAsync` whose throttle wait
times out leaves `msg_db_`, `received_msg_count_` and `ack_msg_count_`
unchanged, but `sent_msg_count_` has already been advanced by one and the
message has already been handed to the transport. -/
theorem ChannelBase.timeout_state_spec (c : ChannelBase) (key : Key)
    (value : Buffer) :
    ((c.Recv key).1 = .error .recvTimeout →
        (c.Recv key).2.1 = c ∧ (c.Recv key).2.2 = []) ∧
    ((c.Send key value).1 = .error .throttleTimeout →
        (c.Send key value).2.1 =
          { c with sent_msg_count_ := c.sent_msg_count_ + 1 } ∧
        (c.Send key value).2.2 = [.sendMsg key value]) ∧
    ((c.SendAsync key value).1 = .error .throttleTimeout →
        (c.SendAsync key value).2.1 =
          { c with sent_msg_count_ := c.sent_msg_count_ + 1 } ∧
        (c.SendAsync key value).2.2 = [.sendMsg key value]) := by
  refine ⟨fun hr => ?_, fun hs => ?_, fun hs => ?_⟩
  · by_cases h : key = kAckKey ∨ key = kFinKey
    · rw [ChannelBase.Recv, if_pos h] at hr ⊢
      exact ⟨rfl, rfl⟩
    · rw [ChannelBase.Recv, if_neg h] at hr ⊢
      cases hf : dbFind c.msg_db_ key
      · simp [hf]
      · rw [hf] at hr
        simp at hr
  · by_cases h : key = kAckKey ∨ key = kFinKey
    · rw [ChannelBase.Send, if_pos h] at hs
      simp at hs
    · rw [send_reduce c key value h]
      exact ⟨rfl, rfl⟩
  · by_cases h : key = kAckKey ∨ key = kFinKey
    · rw [ChannelBase.SendAsync, if_pos h] at hs
      simp at hs
    · rw [sendAsync_reduce c key value h]
      exact ⟨rfl, rfl⟩

/-- Witness for `timeout_state_spec`: a timed-out `Recv` of an absent key
leaves the example channel unchanged; the throttled channel's timed-out
`Send` keeps everything but the already-advanced send counter. -/
theorem ChannelBase.timeout_state_spec_witness :
    (exampleChannel.Recv [2]).1 = .error .recvTimeout ∧
    (exampleChannel.Recv [2]).2.1 = exampleChannel ∧
    (throttledChannel.Send [1] []).2.1 =
      { throttledChannel with
          sent_msg_count_ := throttledChannel.sent_msg_count_ + 1 } :=
  ⟨rfl,
   ((ChannelBase.timeout_state_spec exampleChannel [2] []).1 rfl).1,
   ((ChannelBase.timeout_state_spec throttledChannel [1] []).2.1 rfl).1⟩

/-- C9: adding a chunk at an index already present leaves the fragment map
(and hence the stored first payload and `NumFilled`) unchanged, yet still
grows `message_size_` by the new payload's size; a later `Reassemble` thus
returns a buffer strictly longer than the bytes actually copied into it
(whenever the duplicate payload is non-empty). -/
theorem ChunkedMessage.addChunk_duplicate (m : ChunkedMessage) (i : Nat)
    (v : Buffer) (hs : m.chunks_.Pairwise chunkLT)
    (hmem : i ∈ m.chunks_.map Prod.fst)
    (hsz : (m.chunks_.map fun p => p.2.length).sum ≤ m.message_size_) :
    (m.AddChunk i v).chunks_ = m.chunks_ ∧
    (m.AddChunk i v).NumFilled = m.NumFilled ∧
    (m.AddChunk i v).message_size_ = m.message_size_ + v.length ∧
    (0 < v.length →
        ((m.AddChunk i v).Reassemble).1.length >
          (((m.AddChunk i v).chunks_.map Prod.snd).flatten).length) := by
  have hins : insertChunk i v m.chunks_ = m.chunks_ :=
    insertChunk_present i v m.chunks_ hs hmem
  refine ⟨hins, ?_, rfl, fun hv => ?_⟩
  · simp [ChunkedMessage.NumFilled, ChunkedMessage.AddChunk, hins]
  · have hclen : ((m.chunks_.map Prod.snd).flatten).length =
        (m.chunks_.map fun p => p.2.length).sum := by
      simp [List.map_map, Function.comp_def]
    simp only [ChunkedMessage.Reassemble, ChunkedMessage.AddChunk, hins,
      List.length_append, List.length_replicate]
    omega

/-- Witness for `addChunk_duplicate`: re-adding index 0 with payload
`[7, 7]` to the assembler that already holds `(0, [5])` keeps the map but
bloats `message_size_` to 3, so reassembly yields 3 bytes while only one
was copied. -/
theorem ChunkedMessage.addChunk_duplicate_witness :
    (duplicatedAssembler.AddChunk 0 [7, 7]).chunks_ =
      duplicatedAssembler.chunks_ ∧
    (duplicatedAssembler.AddChunk 0 [7, 7]).message_size_ = 3 ∧
    ((duplicatedAssembler.AddChunk 0 [7, 7]).Reassemble).1.length >
      (((duplicatedAssembler.AddChunk 0 [7, 7]).chunks_.map
          Prod.snd).flatten).length := by
  have h := ChunkedMessage.addChunk_duplicate duplicatedAssembler 0 [7, 7]
    (by decide) (by decide) (by decide)
  exact ⟨h.1, h.2.2.1, h.2.2.2 (by decide)⟩

/-- C10: `CumulativeHash` finalizes a snapshot of the hasher context and
leaves the object untouched: two consecutive calls agree, the digest has
`DigestSize()` bytes, and updating after a `CumulativeHash` behaves exactly
as if it had never been called — for every digest function `f` of the
absorbed stream. -/
theorem Blake3Hash.cumulativeHash_frame (f : List Byte → Nat → Byte)
    (h : Blake3Hash) (data : Buffer) :
    (h.CumulativeHash f).2 = h ∧
    ((h.CumulativeHash f).2.CumulativeHash f).1 = (h.CumulativeHash f).1 ∧
    (h.CumulativeHash f).1.length = h.DigestSize ∧
    (h.CumulativeHash f).2.Update data = h.Update data ∧
    (((h.CumulativeHash f).2.Update data).CumulativeHash f).1 =
      ((h.Update data).CumulativeHash f).1 := by
  refine ⟨rfl, rfl, ?_, rfl, rfl⟩
  simp [Blake3Hash.CumulativeHash, Blake3Hash.DigestSize]

theorem dbErase_length_le (db : List (Key × Buffer)) (k : Key) :
    (dbErase db k).length ≤ db.length := by
  induction db with
  | nil => simp [dbErase]
  | cons p rest ih =>
    rw [dbErase]
    split
    · simp
    · simpa using Nat.succ_le_succ ih

theorem onNormal_inv (c : ChannelBase) (key : Key) (v : Buffer)
    (hinv : c.Inv) : (c.OnNormalMessage key v).1.Inv := by
  unfold ChannelBase.Inv at hinv ⊢
  cases hw : c.waiting_finish_
  · cases hf : dbFind c.msg_db_ key
    · rw [onNormal_reduce_fresh c key v hw hf]
      simp only [List.length_append, List.length_cons, List.length_nil]
      omega
    · rw [onNormal_reduce_dup c key v _ hw hf]
      exact Nat.le_succ_of_le hinv
  · rw [onNormal_reduce_wait c key v hw]
    exact Nat.le_succ_of_le hinv

/-- C8: the invariant I1 — `received_msg_count_` is at least the number of
entries of the inbound store — holds for a fresh channel and is preserved
by every channel operation (message callbacks, chunked delivery, receive,
sends, and the shutdown steps). -/
theorem ChannelBase.inv_received_ge_store :
    (∀ t w, (ChannelBase.init t w).Inv) ∧
    (∀ c c2, ChannelBase.Step c c2 → c.Inv → c2.Inv) := by
  constructor
  · intro t w
    simp [ChannelBase.init, ChannelBase.Inv]
  · intro c c2 hstep hinv
    cases hstep with
    | onMessage key value =>
      rw [ChannelBase.OnMessage]
      by_cases h1 : key = kAckKey
      · rw [if_pos h1]
        exact hinv
      · rw [if_neg h1]
        by_cases h2 : key = kFinKey
        · rw [if_pos h2]
          by_cases h3 : value.length = 8
          · rw [if_pos h3]
            cases hrf : c.received_fin_ <;> simp <;> exact hinv
          · rw [if_neg h3]
            exact hinv
        · rw [if_neg h2]
          exact onNormal_inv c key value hinv
    | onNormalMessage key v => exact onNormal_inv c key v hinv
    | onChunkedMessage key value chunk_idx num_chunks =>
      rw [ChannelBase.OnChunkedMessage]
      by_cases h : key = kAckKey ∨ key = kFinKey
      · rw [if_pos h]
        exact hinv
      · rw [if_neg h]
        by_cases hr : num_chunks ≤ chunk_idx
        · rw [if_pos hr]
          exact hinv
        · rw [if_neg hr]
          dsimp only
          split
          · exact onNormal_inv _ key _ hinv
          · exact hinv
    | recv key =>
      rw [ChannelBase.Recv]
      by_cases h : key = kAckKey ∨ key = kFinKey
      · rw [if_pos h]
        exact hinv
      · rw [if_neg h]
        cases hf : dbFind c.msg_db_ key
        · exact hinv
        · unfold ChannelBase.Inv at hinv ⊢
          exact le_trans (dbErase_length_le c.msg_db_ key) hinv
    | send key value =>
      by_cases h : key = kAckKey ∨ key = kFinKey
      · rw [ChannelBase.Send, if_pos h]
        exact hinv
      · rw [send_reduce c key value h]
        exact hinv
    | sendAsync key value =>
      by_cases h : key = kAckKey ∨ key = kFinKey
      · rw [ChannelBase.SendAsync, if_pos h]
        exact hinv
      · rw [sendAsync_reduce c key value h]
        exact hinv
    | setRecvTimeout t => exact hinv
    | stopReceiving => exact Nat.zero_le _
    | waitForFin => exact hinv
    | waitForFlyingAck => exact hinv

/-- Witness for `inv_received_ge_store`: the invariant holds for a fresh
channel and is carried across a concrete `Recv` step. -/
theorem ChannelBase.inv_received_ge_store_witness :
    (ChannelBase.init 1000 2).Inv ∧ (exampleChannel.Recv [1]).2.1.Inv :=
  ⟨ChannelBase.inv_received_ge_store.1 1000 2,
   ChannelBase.inv_received_ge_store.2 exampleChannel
     ((exampleChannel.Recv [1]).2.1)
     (ChannelBase.Step.recv exampleChannel [1]) (by decide)⟩
